import Mathlib

/-!
Shallow embedding of the Game of Life engine (`main.py`): the `Board`
storage class (a Python `list` subclass with shape-aware indexing) and the
`Life` simulation class, together with proofs of the specified properties.

Cells are embedded as their boolean alive state (the Python `Cell` wrapper
holds exactly one mutable boolean); in-place cell mutation becomes a
functional `List.set`.  Python `set` values are embedded as `Finset ℕ`,
Python `int` indices as `Int` where sign matters (list indexing) and as
`Nat` where the source only ever produces non-negative values.
-/

namespace GameOfLife

/-- `unravel(idx, shape)`: flat index to `(row, col)` via `idx // cols, idx % cols`. -/
def unravel (idx : Nat) (shape : Nat × Nat) : Nat × Nat :=
  (idx / shape.2, idx % shape.2)

/-- `flatten(idx, shape)`: `(row, col)` to flat index via `row * cols + col`. -/
def flatten (idx : Nat × Nat) (shape : Nat × Nat) : Nat :=
  idx.1 * shape.2 + idx.2

/-- `flatten` on possibly-negative Python ints (used by `Board` 2D indexing,
where no range check restricts the components). -/
def flattenI (idx : Int × Int) (shape : Nat × Nat) : Int :=
  idx.1 * (shape.2 : Int) + idx.2

/-- The `Board(List[Cell])` data: a shape plus the underlying list payload. -/
structure Board where
  shape : Nat × Nat
  cells : List Bool
  deriving DecidableEq, Repr

def Board.rows (b : Board) : Nat := b.shape.1

def Board.cols (b : Board) : Nat := b.shape.2

/-- `Board.__init__`: stores the shape, defaults `initial` to all-dead cells,
and `assert len(initial) == rows * cols` (modelled as `none` on failure). -/
def Board.init (shape : Nat × Nat) (initial : Option (List Bool)) : Option Board :=
  let initial' := initial.getD (List.replicate (shape.1 * shape.2) false)
  if initial'.length = shape.1 * shape.2 then some ⟨shape, initial'⟩ else none

/-- `Board.from_list`: each entry's truthiness becomes the cell state. -/
def Board.from_list (shape : Nat × Nat) (l : List Bool) : Option Board :=
  Board.init shape (some l)

/-- `Board.from_indices`: cell `idx` is alive iff `idx ∈ list_`.  The
constructed `initial` has length `rows * cols` by construction, so the
constructor's assert always passes and the result is total. -/
def Board.from_indices (shape : Nat × Nat) (s : Finset Nat) : Board :=
  ⟨shape, (List.range (shape.1 * shape.2)).map (fun idx => decide (idx ∈ s))⟩

/-- `Board.from_2d_indices`: cell `idx` is alive iff `unravel(idx, shape) ∈ list_`. -/
def Board.from_2d_indices (shape : Nat × Nat) (s : Finset (Nat × Nat)) : Board :=
  ⟨shape, (List.range (shape.1 * shape.2)).map (fun idx => decide (unravel idx shape ∈ s))⟩

/-- `Board.__validate_idx` on an already-flat index: the source's bounds
check is `if 0 > idx >= len(self)`, a chained comparison that demands
`idx < 0` AND `idx ≥ len` simultaneously, so the `IndexError` branch is
unreachable; `none` models that (never taken) raise. -/
def Board.validate_idx (b : Board) (idx : Int) : Option Int :=
  if 0 > idx ∧ idx ≥ (b.cells.length : Int) then none else some idx

/-- Python `list.__getitem__` with an `int` index: a negative index has the
length added once, then the result must lie in `[0, len)` or `IndexError`
(modelled as `none`) is raised. -/
def pyListGet (l : List Bool) (idx : Int) : Option Bool :=
  let j : Int := if idx < 0 then idx + (l.length : Int) else idx
  if 0 ≤ j ∧ j < (l.length : Int) then some (l.getD j.toNat false) else none

/-- Python `list.__setitem__` with an `int` index (same index semantics). -/
def pyListSet (l : List Bool) (idx : Int) (v : Bool) : Option (List Bool) :=
  let j : Int := if idx < 0 then idx + (l.length : Int) else idx
  if 0 ≤ j ∧ j < (l.length : Int) then some (l.set j.toNat v) else none

/-- `Board.__getitem__` with a flat `int` index: validate (never fails), then
delegate to the parent `list`'s lookup. -/
def Board.get (b : Board) (idx : Int) : Option Bool :=
  (b.validate_idx idx).bind (pyListGet b.cells)

/-- `Board.__getitem__` with a 2D `(row, col)` index: the tuple is flattened
(`row * cols + col`) and only the resolved flat index reaches the
(ineffective) bounds check — the components are never validated. -/
def Board.get2d (b : Board) (idx : Int × Int) : Option Bool :=
  b.get (flattenI idx b.shape)

/-- `Board.__setitem__` with a flat `int` index. -/
def Board.set (b : Board) (idx : Int) (v : Bool) : Option Board :=
  (b.validate_idx idx).bind fun i => (pyListSet b.cells i v).map fun c => ⟨b.shape, c⟩

/-- `Board.__setitem__` with a 2D `(row, col)` index. -/
def Board.set2d (b : Board) (idx : Int × Int) (v : Bool) : Option Board :=
  b.set (flattenI idx b.shape) v

/-- The `Life` simulation state: the owned board, the derived alive-index
set, and the generation counter. -/
structure Life where
  board : Board
  alive_cells : Finset Nat
  generation : Nat
  deriving DecidableEq

/-- The `Life.board` setter rebuilds `__alive_cells` from the grid:
`set(i for i, cell in enumerate(self.board) if cell.alive)`. -/
def aliveSetOf (b : Board) : Finset Nat :=
  (Finset.range b.cells.length).filter (fun i => b.cells.getD i false = true)

/-- `Life.__init__`: assigns the board (triggering the setter's alive-set
rebuild) and zeroes the generation counter. -/
def Life.init (board : Board) : Life :=
  { board := board, alive_cells := aliveSetOf board, generation := 0 }

/-- `Life.dead`: truthiness of the empty alive set. -/
def Life.dead (g : Life) : Bool := decide (g.alive_cells = ∅)

/-- `Life.alive`: `bool(self.__alive_cells)`. -/
def Life.alive (g : Life) : Bool := !g.dead

/-- `product((-1, 0, 1), repeat=2)`, the 9 neighbour offsets (the set
comprehension consuming them is order-insensitive). -/
def neighbourOffsets : List (Int × Int) :=
  [(-1, -1), (-1, 0), (-1, 1), (0, -1), (0, 0), (0, 1), (1, -1), (1, 0), (1, 1)]

/-- `Life.__get_neighbours_idx`: unravel `idx`, flatten every offset
position that lies inside the grid, and `discard(idx)` itself. -/
def neighboursIdx (shape : Nat × Nat) (idx : Nat) : Finset Nat :=
  ((neighbourOffsets.filterMap (fun d =>
      let nr : Int := ((unravel idx shape).1 : Int) + d.1
      let nc : Int := ((unravel idx shape).2 : Int) + d.2
      if 0 ≤ nr ∧ nr < (shape.1 : Int) ∧ 0 ≤ nc ∧ nc < (shape.2 : Int)
      then some (nr * (shape.2 : Int) + nc).toNat else none)).toFinset).erase idx

/-- The alive state of `self.board[idx]`, read through `Board.__getitem__`
(on the simulation's paths `idx` is always in range, so the raise inside
`get` never fires; `getD false` discharges the impossible `none`). -/
def Life.boardAlive (g : Life) (idx : Nat) : Bool :=
  (g.board.get (idx : Int)).getD false

/-- `Life.__get_alive_neighbours`: intersection of the alive set with the
neighbour-index set. -/
def Life.getAliveNeighbours (g : Life) (idx : Nat) : Finset Nat :=
  g.alive_cells ∩ neighboursIdx g.board.shape idx

/-- `Life.__should_die`: a dead cell never dies; an alive one dies iff its
alive-neighbour count is `> 3` or `< 2`. -/
def Life.shouldDie (g : Life) (idx : Nat) : Bool :=
  if !g.boardAlive idx then false
  else
    let n := (g.getAliveNeighbours idx).card
    decide (n > 3) || decide (n < 2)

/-- `Life.__should_resurrect`: an alive cell never resurrects; a dead one is
born iff its alive-neighbour count is exactly 3. -/
def Life.shouldResurrect (g : Life) (idx : Nat) : Bool :=
  if g.boardAlive idx then false
  else decide ((g.getAliveNeighbours idx).card = 3)

/-- `Life.__cells_to_check`: the alive set unioned with every alive cell's
neighbour set. -/
def Life.cellsToCheck (g : Life) : Finset Nat :=
  g.alive_cells ∪ g.alive_cells.biUnion (fun idx => neighboursIdx g.board.shape idx)

/-- The classification loop's `to_set_dead` list as a set: candidates for
which `__should_die` holds. -/
def Life.toSetDead (g : Life) : Finset Nat :=
  g.cellsToCheck.filter (fun idx => g.shouldDie idx = true)

/-- The classification loop's `to_set_alive` list as a set: candidates that
fall past the `__should_die` test (via `continue`) and satisfy
`__should_resurrect`. -/
def Life.toSetAlive (g : Life) : Finset Nat :=
  g.cellsToCheck.filter (fun idx => g.shouldDie idx = false ∧ g.shouldResurrect idx = true)

instance (v : Bool) : RightCommutative (fun (c : List Bool) (i : Nat) => c.set i v) :=
  ⟨fun c i j => by
    by_cases h : i = j
    · rw [h]
    · exact List.set_comm _ _ _ h⟩

/-- Iterated in-place cell writes `board[idx].set_alive()/set_dead()` over
the classification lists.  Python iterates those lists in the (arbitrary)
set order they were collected in; writing the same value at two indices is
order-independent, so the iteration is a multiset fold. -/
def writeCells (cells : List Bool) (idxs : Multiset Nat) (v : Bool) : List Bool :=
  Multiset.foldl (fun c i => c.set i v) cells idxs

/-- `Life.update`: classify every candidate against the pre-call state, then
apply all births (cell write + `alive_cells.add`), then all deaths (cell
write + `alive_cells.discard`), then bump the generation counter. -/
def Life.update (g : Life) : Life :=
  { board := ⟨g.board.shape,
      writeCells (writeCells g.board.cells (g.toSetAlive).val true) (g.toSetDead).val false⟩
    alive_cells := (g.alive_cells ∪ g.toSetAlive) \ g.toSetDead
    generation := g.generation + 1 }

/-- Well-formedness: the payload length matches the shape (guaranteed by the
constructor's assert) and the alive set is exactly the grid's alive indices
(the spec's core invariant, established by the board setter). -/
def Life.WF (g : Life) : Prop :=
  g.board.cells.length = g.board.rows * g.board.cols ∧ g.alive_cells = aliveSetOf g.board

/-- The classic Life rule as stated by the spec: an alive cell survives on 2
or 3 alive neighbours, a dead cell is born on exactly 3. -/
def lifeRule (alive : Bool) (n : Nat) : Bool :=
  if alive then decide (2 ≤ n ∧ n ≤ 3) else decide (n = 3)

/-! ### Supporting lemmas -/

theorem getD_set (l : List Bool) (i : Nat) (v : Bool) (j : Nat) :
    (l.set i v).getD j false = if i = j ∧ j < l.length then v else l.getD j false := by
  simp only [List.getD_eq_getElem?_getD, List.getElem?_set]
  by_cases h : i = j
  · subst h
    by_cases h2 : i < l.length
    · simp [h2, List.getElem?_eq_getElem h2]
    · simp [h2, List.getElem?_eq_none (by omega : l.length ≤ i)]
  · simp [h]

theorem writeCells_length (cells : List Bool) (s : Multiset Nat) (v : Bool) :
    (writeCells cells s v).length = cells.length := by
  induction s using Multiset.induction_on generalizing cells with
  | empty => rfl
  | cons i s ih =>
      show (writeCells cells (i ::ₘ s) v).length = cells.length
      rw [writeCells, Multiset.foldl_cons]
      calc (Multiset.foldl (fun c i => c.set i v) (cells.set i v) s).length
          = (cells.set i v).length := ih (cells.set i v)
        _ = cells.length := List.length_set ..

theorem writeCells_getD (cells : List Bool) (s : Multiset Nat) (v : Bool) (j : Nat) :
    (writeCells cells s v).getD j false =
      if j ∈ s ∧ j < cells.length then v else cells.getD j false := by
  induction s using Multiset.induction_on generalizing cells with
  | empty => simp [writeCells]
  | cons i s ih =>
      rw [writeCells, Multiset.foldl_cons]
      rw [show Multiset.foldl (fun c i => c.set i v) (cells.set i v) s
            = writeCells (cells.set i v) s v from rfl] at *
      rw [ih (cells.set i v), List.length_set, getD_set]
      by_cases hm : j ∈ s
      · by_cases hl : j < cells.length <;> simp [hm, hl]
      · by_cases hi : i = j
        · by_cases hl : j < cells.length <;> simp [hm, hi, hl, Multiset.mem_cons]
        · have hji : ¬j = i := fun h => hi h.symm
          by_cases hl : j < cells.length <;> simp [hm, hi, hji, hl, Multiset.mem_cons]

theorem flat_div (a b cols : Nat) (hb : b < cols) : (a * cols + b) / cols = a := by
  rw [Nat.mul_comm a cols, Nat.add_comm, Nat.add_mul_div_left _ _ (by omega : 0 < cols),
    Nat.div_eq_of_lt hb, Nat.zero_add]

theorem flat_mod (a b cols : Nat) (hb : b < cols) : (a * cols + b) % cols = b := by
  rw [Nat.mul_comm a cols, Nat.add_comm, Nat.add_mul_mod_self_left, Nat.mod_eq_of_lt hb]

theorem flat_lt (a b rows cols : Nat) (ha : a < rows) (hb : b < cols) :
    a * cols + b < rows * cols := by
  calc a * cols + b < a * cols + cols := by omega
    _ = (a + 1) * cols := by rw [Nat.succ_mul]
    _ ≤ rows * cols := Nat.mul_le_mul_right cols (by omega)

theorem div_mod_flat (idx cols : Nat) : idx / cols * cols + idx % cols = idx := by
  rw [Nat.mul_comm (idx / cols) cols]
  exact Nat.div_add_mod idx cols

theorem mem_aliveSetOf (b : Board) (i : Nat) :
    i ∈ aliveSetOf b ↔ i < b.cells.length ∧ b.cells.getD i false = true := by
  simp [aliveSetOf, Finset.mem_filter, Finset.mem_range]

theorem Board.get_natCast (b : Board) (idx : Nat) (h : idx < b.cells.length) :
    b.get (idx : Int) = some (b.cells.getD idx false) := by
  have h0 : ¬((0:Int) > (idx : Int) ∧ (idx : Int) ≥ (b.cells.length : Int)) := by omega
  have h1 : ¬((idx : Int) < 0) := by omega
  have h2 : (0:Int) ≤ (idx : Int) ∧ (idx : Int) < (b.cells.length : Int) := by omega
  simp only [Board.get, Board.validate_idx, if_neg h0, Option.some_bind, pyListGet,
    if_neg h1, if_pos h2, Int.toNat_natCast]

theorem Life.boardAlive_eq (g : Life) (idx : Nat) (h : idx < g.board.cells.length) :
    g.boardAlive idx = g.board.cells.getD idx false := by
  rw [Life.boardAlive, Board.get_natCast g.board idx h, Option.getD_some]

theorem natAbs_of_mem_neighbourOffsets (d : Int × Int) (hd : d ∈ neighbourOffsets) :
    d.1.natAbs ≤ 1 ∧ d.2.natAbs ≤ 1 := by
  fin_cases hd <;> decide

theorem mem_neighbourOffsets_of_natAbs (x y : Int) (hx : x.natAbs ≤ 1) (hy : y.natAbs ≤ 1) :
    (x, y) ∈ neighbourOffsets := by
  have hx' : x = -1 ∨ x = 0 ∨ x = 1 := by omega
  have hy' : y = -1 ∨ y = 0 ∨ y = 1 := by omega
  rcases hx' with h | h | h <;> rcases hy' with h2 | h2 | h2 <;> subst h <;> subst h2 <;> decide

/-- Membership in the neighbour set, in grid coordinates: `j` is a neighbour
of `idx` exactly when `j` flattens some in-bounds cell `(a, b)` at Chebyshev
distance at most 1 from `idx`'s cell, other than `idx`'s cell itself. -/
theorem mem_neighboursIdx (shape : Nat × Nat) (idx j : Nat) :
    j ∈ neighboursIdx shape idx ↔
      j ≠ idx ∧ ∃ a b : Nat, a < shape.1 ∧ b < shape.2 ∧
        a ≤ idx / shape.2 + 1 ∧ idx / shape.2 ≤ a + 1 ∧
        b ≤ idx % shape.2 + 1 ∧ idx % shape.2 ≤ b + 1 ∧
        j = a * shape.2 + b := by
  simp only [neighboursIdx, unravel, Finset.mem_erase, List.mem_toFinset, List.mem_filterMap]
  constructor
  · rintro ⟨hne, d, hd, hfd⟩
    refine ⟨hne, ?_⟩
    obtain ⟨h1, h2⟩ := natAbs_of_mem_neighbourOffsets d hd
    split at hfd
    · rename_i hguard
      obtain ⟨hnr0, hnr1, hnc0, hnc1⟩ := hguard
      injection hfd with hfd
      obtain ⟨A, hA⟩ : ∃ A : Nat, (A : Int) = ((idx / shape.2 : Nat) : Int) + d.1 :=
        ⟨_, Int.toNat_of_nonneg hnr0⟩
      obtain ⟨B, hB⟩ : ∃ B : Nat, (B : Int) = ((idx % shape.2 : Nat) : Int) + d.2 :=
        ⟨_, Int.toNat_of_nonneg hnc0⟩
      rw [← hA, ← hB] at hfd
      have hABj : (((A * shape.2 + B : Nat) : Int)).toNat = j := by
        rw [show ((A * shape.2 + B : Nat) : Int) = (A : Int) * (shape.2 : Int) + (B : Int) by
          push_cast
          ring]
        exact hfd
      rw [Int.toNat_natCast] at hABj
      exact ⟨A, B, by omega, by omega, by omega, by omega, by omega, by omega, hABj.symm⟩
    · exact absurd hfd (by simp)
  · rintro ⟨hne, a, b, ha, hb, h1, h2, h3, h4, hj⟩
    refine ⟨hne, ((a : Int) - (idx / shape.2 : Nat), (b : Int) - (idx % shape.2 : Nat)), ?_, ?_⟩
    · exact mem_neighbourOffsets_of_natAbs _ _ (by omega) (by omega)
    · dsimp only
      have hr : ((idx / shape.2 : Nat) : Int) + ((a : Int) - ((idx / shape.2 : Nat) : Int)) =
          (a : Int) := by ring
      have hc : ((idx % shape.2 : Nat) : Int) + ((b : Int) - ((idx % shape.2 : Nat) : Int)) =
          (b : Int) := by ring
      rw [hr, hc, if_pos ⟨by omega, by omega, by omega, by omega⟩]
      rw [show (a : Int) * (shape.2 : Int) + (b : Int) = ((a * shape.2 + b : Nat) : Int) by
        push_cast
        ring]
      rw [Int.toNat_natCast, hj]

/-- Membership in the neighbour set via the candidate's own coordinates:
`j` is a neighbour of `idx` iff it is a distinct in-bounds index whose row
and column each differ from `idx`'s by at most 1 (clipped Moore
neighbourhood, no wraparound). -/
theorem mem_neighboursIdx_div_mod (shape : Nat × Nat) (idx j : Nat) :
    j ∈ neighboursIdx shape idx ↔
      j ≠ idx ∧ j < shape.1 * shape.2 ∧
        j / shape.2 ≤ idx / shape.2 + 1 ∧ idx / shape.2 ≤ j / shape.2 + 1 ∧
        j % shape.2 ≤ idx % shape.2 + 1 ∧ idx % shape.2 ≤ j % shape.2 + 1 := by
  rw [mem_neighboursIdx]
  constructor
  · rintro ⟨hne, a, b, ha, hb, h1, h2, h3, h4, hj⟩
    subst hj
    rw [flat_div a b _ hb, flat_mod a b _ hb]
    exact ⟨hne, flat_lt a b _ _ ha hb, h1, h2, h3, h4⟩
  · rintro ⟨hne, hlt, h1, h2, h3, h4⟩
    have hcols : 0 < shape.2 := by
      rcases Nat.eq_zero_or_pos shape.2 with h | h
      · rw [h, Nat.mul_zero] at hlt
        omega
      · exact h
    refine ⟨hne, j / shape.2, j % shape.2, ?_, Nat.mod_lt j hcols, h1, h2, h3, h4,
      (div_mod_flat j shape.2).symm⟩
    exact Nat.div_lt_of_lt_mul (by rw [Nat.mul_comm] at hlt; exact hlt)

theorem neighboursIdx_subset_range (shape : Nat × Nat) (idx : Nat) :
    neighboursIdx shape idx ⊆ Finset.range (shape.1 * shape.2) := by
  intro j hj
  rw [mem_neighboursIdx_div_mod] at hj
  exact Finset.mem_range.mpr hj.2.1

/-- The clipped Moore adjacency relation is symmetric for in-bounds cells. -/
theorem neighboursIdx_symm (shape : Nat × Nat) (idx j : Nat)
    (hi : idx < shape.1 * shape.2) (hj : j < shape.1 * shape.2) :
    j ∈ neighboursIdx shape idx ↔ idx ∈ neighboursIdx shape j := by
  rw [mem_neighboursIdx_div_mod, mem_neighboursIdx_div_mod]
  constructor <;> rintro ⟨h1, _, h3, h4, h5, h6⟩ <;>
    exact ⟨Ne.symm h1, by assumption, h4, h3, h6, h5⟩

theorem mem_cellsToCheck (g : Life) (j : Nat) :
    j ∈ g.cellsToCheck ↔
      j ∈ g.alive_cells ∨ ∃ a ∈ g.alive_cells, j ∈ neighboursIdx g.board.shape a := by
  simp [Life.cellsToCheck, Finset.mem_union, Finset.mem_biUnion]

theorem alive_subset_range (g : Life) (h : g.WF) :
    g.alive_cells ⊆ Finset.range g.board.cells.length := by
  intro i hi
  rw [h.2, mem_aliveSetOf] at hi
  exact Finset.mem_range.mpr hi.1

theorem cellsToCheck_subset_range (g : Life) (h : g.WF) :
    g.cellsToCheck ⊆ Finset.range g.board.cells.length := by
  intro j hj
  rw [mem_cellsToCheck] at hj
  rcases hj with hj | ⟨a, _, hj⟩
  · exact alive_subset_range g h hj
  · have := neighboursIdx_subset_range g.board.shape a hj
    rw [h.1]
    exact this

theorem mem_toSetDead (g : Life) (j : Nat) :
    j ∈ g.toSetDead ↔ j ∈ g.cellsToCheck ∧ g.shouldDie j = true := by
  simp [Life.toSetDead, Finset.mem_filter]

theorem mem_toSetAlive (g : Life) (j : Nat) :
    j ∈ g.toSetAlive ↔
      j ∈ g.cellsToCheck ∧ g.shouldDie j = false ∧ g.shouldResurrect j = true := by
  simp [Life.toSetAlive, Finset.mem_filter]

theorem update_cells_length (g : Life) :
    (g.update).board.cells.length = g.board.cells.length := by
  show (writeCells (writeCells g.board.cells g.toSetAlive.val true) g.toSetDead.val
      false).length = _
  rw [writeCells_length, writeCells_length]

theorem update_cells_getD (g : Life) (j : Nat) :
    (g.update).board.cells.getD j false =
      if j ∈ g.toSetDead ∧ j < g.board.cells.length then false
      else if j ∈ g.toSetAlive ∧ j < g.board.cells.length then true
      else g.board.cells.getD j false := by
  show (writeCells (writeCells g.board.cells g.toSetAlive.val true) g.toSetDead.val
      false).getD j false = _
  rw [writeCells_getD, writeCells_length, writeCells_getD]
  simp only [Finset.mem_val]

theorem update_alive_cells (g : Life) :
    (g.update).alive_cells = (g.alive_cells ∪ g.toSetAlive) \ g.toSetDead := rfl

theorem update_generation (g : Life) : (g.update).generation = g.generation + 1 := rfl

theorem update_shape (g : Life) : (g.update).board.shape = g.board.shape := rfl

theorem lt_shape_of_lt_length (g : Life) (hg : g.WF) (k : Nat)
    (hk : k < g.board.cells.length) : k < g.board.shape.1 * g.board.shape.2 := by
  rw [hg.1] at hk
  exact hk

theorem shouldDie_iff (g : Life) (j : Nat) (h : j < g.board.cells.length) :
    g.shouldDie j = true ↔
      g.board.cells.getD j false = true ∧
        (3 < (g.getAliveNeighbours j).card ∨ (g.getAliveNeighbours j).card < 2) := by
  rw [Life.shouldDie, Life.boardAlive_eq g j h]
  cases hb : g.board.cells.getD j false <;> simp [hb]

theorem shouldResurrect_iff (g : Life) (j : Nat) (h : j < g.board.cells.length) :
    g.shouldResurrect j = true ↔
      g.board.cells.getD j false = false ∧ (g.getAliveNeighbours j).card = 3 := by
  rw [Life.shouldResurrect, Life.boardAlive_eq g j h]
  cases hb : g.board.cells.getD j false <;> simp [hb]

theorem not_mem_cellsToCheck_iff (g : Life) (hg : g.WF) (j : Nat)
    (hj : j < g.board.cells.length) :
    j ∉ g.cellsToCheck ↔
      g.board.cells.getD j false = false ∧ g.getAliveNeighbours j = ∅ := by
  rw [mem_cellsToCheck]
  constructor
  · intro h
    push_neg at h
    obtain ⟨h1, h2⟩ := h
    refine ⟨?_, ?_⟩
    · cases hb : g.board.cells.getD j false
      · rfl
      · exact absurd (by rw [hg.2, mem_aliveSetOf]; exact ⟨hj, hb⟩) h1
    · rw [Finset.eq_empty_iff_forall_not_mem]
      intro k hk
      rw [Life.getAliveNeighbours, Finset.mem_inter] at hk
      obtain ⟨hka, hkn⟩ := hk
      have hkl : k < g.board.cells.length :=
        Finset.mem_range.mp (alive_subset_range g hg hka)
      have hjn : j ∈ neighboursIdx g.board.shape k :=
        (neighboursIdx_symm g.board.shape k j (lt_shape_of_lt_length g hg k hkl)
          (lt_shape_of_lt_length g hg j hj)).mpr hkn
      exact h2 k hka hjn
  · rintro ⟨hdead, hempty⟩
    rintro (hja | ⟨a, ha, hjn⟩)
    · rw [hg.2, mem_aliveSetOf] at hja
      rw [hja.2] at hdead
      exact absurd hdead (by decide)
    · have hal : a < g.board.cells.length :=
        Finset.mem_range.mp (alive_subset_range g hg ha)
      have han : a ∈ neighboursIdx g.board.shape j :=
        (neighboursIdx_symm g.board.shape j a (lt_shape_of_lt_length g hg j hj)
          (lt_shape_of_lt_length g hg a hal)).mpr hjn
      have : a ∈ g.getAliveNeighbours j := by
        rw [Life.getAliveNeighbours, Finset.mem_inter]
        exact ⟨ha, han⟩
      rw [hempty] at this
      exact absurd this (Finset.not_mem_empty a)

/-- Pointwise description of one `update`: every in-range cell's next state
is the classic Life rule applied to its previous state and previous
alive-neighbour count. -/
theorem update_getD_rule (g : Life) (hg : g.WF) (j : Nat)
    (hj : j < g.board.cells.length) :
    (g.update).board.cells.getD j false =
      lifeRule (g.board.cells.getD j false) (g.getAliveNeighbours j).card := by
  rw [update_cells_getD]
  by_cases hd : j ∈ g.toSetDead
  · rw [if_pos ⟨hd, hj⟩]
    rw [mem_toSetDead] at hd
    obtain ⟨-, hdie⟩ := hd
    rw [shouldDie_iff g j hj] at hdie
    rw [lifeRule, hdie.1, if_pos rfl]
    have := hdie.2
    symm
    rw [decide_eq_false_iff_not]
    omega
  · rw [if_neg (by intro h; exact hd h.1)]
    by_cases ha : j ∈ g.toSetAlive
    · rw [if_pos ⟨ha, hj⟩]
      rw [mem_toSetAlive] at ha
      obtain ⟨-, -, hres⟩ := ha
      rw [shouldResurrect_iff g j hj] at hres
      rw [lifeRule, hres.1, hres.2]
      simp
    · rw [if_neg (by intro h; exact ha h.1)]
      by_cases hc : j ∈ g.cellsToCheck
      · rw [mem_toSetDead] at hd
        rw [mem_toSetAlive] at ha
        have hdie : g.shouldDie j = false := by
          cases h : g.shouldDie j
          · rfl
          · exact absurd ⟨hc, h⟩ hd
        have hres : g.shouldResurrect j = false := by
          cases h : g.shouldResurrect j
          · rfl
          · exact absurd ⟨hc, hdie, h⟩ ha
        cases hb : g.board.cells.getD j false
        · have h3 : (g.getAliveNeighbours j).card ≠ 3 := by
            intro h3
            have := (shouldResurrect_iff g j hj).mpr ⟨hb, h3⟩
            simp [this] at hres
          simp [lifeRule, h3]
        · have h23 : 2 ≤ (g.getAliveNeighbours j).card ∧ (g.getAliveNeighbours j).card ≤ 3 := by
            by_contra hn
            have := (shouldDie_iff g j hj).mpr ⟨hb, by omega⟩
            simp [this] at hdie
          simp [lifeRule, h23]
      · rw [not_mem_cellsToCheck_iff g hg j hj] at hc
        rw [hc.1, hc.2]
        simp [lifeRule]

/-- One `update` preserves well-formedness: the payload keeps its length and
the alive set tracks exactly the alive cells of the new grid. -/
theorem update_WF (g : Life) (hg : g.WF) : (g.update).WF := by
  constructor
  · rw [update_cells_length]
    exact hg.1
  · ext j
    rw [update_alive_cells, Finset.mem_sdiff, Finset.mem_union, mem_aliveSetOf,
      update_cells_length]
    by_cases hj : j < g.board.cells.length
    · rw [update_cells_getD]
      by_cases hd : j ∈ g.toSetDead
      · simp [hd, hj]
      · by_cases ha : j ∈ g.toSetAlive
        · simp [hd, ha, hj]
        · simp [hd, ha, hj, hg.2, mem_aliveSetOf]
    · have h1 : j ∉ g.alive_cells := fun h =>
        hj (Finset.mem_range.mp (alive_subset_range g hg h))
      have h2 : j ∉ g.toSetAlive := fun h =>
        hj (Finset.mem_range.mp (cellsToCheck_subset_range g hg ((mem_toSetAlive g j).mp h).1))
      simp [h1, h2, hj]

/-- An empty alive set makes `update` a no-op on both the grid and the set
(the candidate set is empty, so nothing is classified or written). -/
theorem update_of_dead (g : Life) (hdead : g.alive_cells = ∅) :
    (g.update).board = g.board ∧ (g.update).alive_cells = ∅ := by
  have hcheck : g.cellsToCheck = ∅ := by
    rw [Life.cellsToCheck, hdead]
    simp
  have hA : g.toSetAlive = ∅ := by
    rw [Life.toSetAlive, hcheck]
    rfl
  have hD : g.toSetDead = ∅ := by
    rw [Life.toSetDead, hcheck]
    rfl
  constructor
  · show (⟨g.board.shape,
      writeCells (writeCells g.board.cells g.toSetAlive.val true) g.toSetDead.val false⟩ :
        Board) = g.board
    rw [hA, hD]
    rfl
  · rw [update_alive_cells, hdead, hA, hD]
    simp

/-! ### Claim theorems -/

/-- C1: for every simulation, the derived cache equals the primary storage
before and after every `advance()`: the invariant `alive_set = {i :
grid.cells[i] alive}` (together with the length invariant) holds right
after construction — the set is rebuilt from the assigned board — and is
re-established by every `update`, which mutates grid cells and alive-set
membership together. -/
theorem alive_set_cache_invariant (b : Board) (g : Life)
    (hb : b.cells.length = b.rows * b.cols) (hg : g.WF) :
    (Life.init b).WF ∧ (g.update).WF :=
  ⟨⟨hb, rfl⟩, update_WF g hg⟩

theorem alive_set_cache_invariant_witness :
    (Life.init (Board.from_indices (3, 3) {4})).WF ∧
      ((Life.init (Board.from_indices (3, 3) {4})).update).WF :=
  alive_set_cache_invariant (Board.from_indices (3, 3) {4})
    (Life.init (Board.from_indices (3, 3) {4})) (by decide) ⟨by decide, by decide⟩

/-- C2: `advance()` computes one generation with simultaneous-update
semantics: every cell's next state is the classic Life rule applied to its
own pre-call state and its pre-call count of alive Moore neighbours (an
alive cell with fewer than 2 or more than 3 dies, a dead cell with exactly
3 is born, every other cell keeps its state; no write of this generation
influences any classification). -/
theorem update_simultaneous_life_rule (g : Life) (hg : g.WF) (idx : Nat)
    (hidx : idx < g.board.cells.length) :
    (g.update).board.cells.getD idx false =
      lifeRule (g.board.cells.getD idx false)
        ((aliveSetOf g.board ∩ neighboursIdx g.board.shape idx).card) := by
  rw [← hg.2]
  exact update_getD_rule g hg idx hidx

theorem update_simultaneous_life_rule_witness :
    ((Life.init (Board.from_2d_indices (3, 3) {(0, 1), (1, 0), (1, 1)})).update).board.cells.getD
        0 false =
      lifeRule
        ((Life.init (Board.from_2d_indices (3, 3) {(0, 1), (1, 0), (1, 1)})).board.cells.getD
          0 false)
        ((aliveSetOf (Life.init (Board.from_2d_indices (3, 3) {(0, 1), (1, 0), (1, 1)})).board ∩
          neighboursIdx
            (Life.init (Board.from_2d_indices (3, 3) {(0, 1), (1, 0), (1, 1)})).board.shape
            0).card) :=
  update_simultaneous_life_rule (Life.init (Board.from_2d_indices (3, 3) {(0, 1), (1, 0), (1, 1)}))
    ⟨by decide, by decide⟩ 0 (by decide)

/-- C4: dead is absorbing: a well-formed simulation with an empty alive set
keeps its board (every cell state) and its empty alive set unchanged after
any number of consecutive `advance()` calls, and its grid is all-dead at
every step — an all-dead grid never produces an alive cell. -/
theorem dead_is_absorbing (g : Life) (hg : g.WF) (hdead : g.alive_cells = ∅) :
    ∀ n : Nat, (Life.update^[n] g).board = g.board ∧
      (Life.update^[n] g).alive_cells = ∅ ∧
      ∀ i : Nat, (Life.update^[n] g).board.cells.getD i false = false := by
  have hall : ∀ i : Nat, g.board.cells.getD i false = false := by
    intro i
    by_cases hi : i < g.board.cells.length
    · cases hb : g.board.cells.getD i false
      · rfl
      · have : i ∈ g.alive_cells := by
          rw [hg.2, mem_aliveSetOf]
          exact ⟨hi, hb⟩
        rw [hdead] at this
        exact absurd this (Finset.not_mem_empty i)
    · exact List.getD_eq_default _ _ (by omega)
  intro n
  induction n with
  | zero => exact ⟨rfl, hdead, hall⟩
  | succ n ih =>
      obtain ⟨hb, ha, _⟩ := ih
      rw [Function.iterate_succ_apply']
      obtain ⟨hb', ha'⟩ := update_of_dead (Life.update^[n] g) ha
      refine ⟨by rw [hb', hb], ha', ?_⟩
      intro i
      rw [hb', hb]
      exact hall i

/-- C5: the neighbour computation is the bounds-clipped Moore neighbourhood:
`j` is a neighbour of `idx` exactly when it is the flattening of
`(row + dr, col + dc)` for some offsets `dr, dc ∈ {-1, 0, 1}` other than
`(0, 0)` that stay inside the grid (no wraparound); in particular on a grid
with at least 2 rows and 2 columns the corner cell `(0,0)` has exactly the 3
neighbours `{1, cols, cols+1}`, and with those 3 alive and `(0,0)` dead one
`advance()` makes `(0,0)` alive. -/
theorem neighbours_clipped_moore (shape : Nat × Nat) (idx j : Nat) :
    (j ∈ neighboursIdx shape idx ↔
      ∃ dr dc : Int, dr.natAbs ≤ 1 ∧ dc.natAbs ≤ 1 ∧ ¬(dr = 0 ∧ dc = 0) ∧
        0 ≤ ((idx / shape.2 : Nat) : Int) + dr ∧
        ((idx / shape.2 : Nat) : Int) + dr < (shape.1 : Int) ∧
        0 ≤ ((idx % shape.2 : Nat) : Int) + dc ∧
        ((idx % shape.2 : Nat) : Int) + dc < (shape.2 : Int) ∧
        (j : Int) = (((idx / shape.2 : Nat) : Int) + dr) * (shape.2 : Int) +
          (((idx % shape.2 : Nat) : Int) + dc)) ∧
    (2 ≤ shape.1 → 2 ≤ shape.2 →
      neighboursIdx shape 0 = {1, shape.2, shape.2 + 1} ∧
        (neighboursIdx shape 0).card = 3) ∧
    ((Life.init (Board.from_2d_indices (3, 3) {(0, 1), (1, 0), (1, 1)})).update).board.cells.getD
        (flatten (0, 0) (3, 3)) false = true := by
  refine ⟨?_, ?_, by decide⟩
  · rw [mem_neighboursIdx]
    constructor
    · rintro ⟨hne, a, b, ha, hb, h1, h2, h3, h4, hj⟩
      refine ⟨(a : Int) - ((idx / shape.2 : Nat) : Int),
        (b : Int) - ((idx % shape.2 : Nat) : Int),
        by omega, by omega, ?_, by omega, by omega, by omega, by omega, ?_⟩
      · rintro ⟨hdr, hdc⟩
        have ha' : a = idx / shape.2 := by omega
        have hb' : b = idx % shape.2 := by omega
        rw [ha', hb', div_mod_flat] at hj
        exact hne hj
      · have e1 : ((idx / shape.2 : Nat) : Int) +
            ((a : Int) - ((idx / shape.2 : Nat) : Int)) = (a : Int) := by ring
        have e2 : ((idx % shape.2 : Nat) : Int) +
            ((b : Int) - ((idx % shape.2 : Nat) : Int)) = (b : Int) := by ring
        rw [e1, e2, hj]
        push_cast
        ring
    · rintro ⟨dr, dc, hdr, hdc, hne00, g1, g2, g3, g4, hj⟩
      obtain ⟨A, hA⟩ : ∃ A : Nat, (A : Int) = ((idx / shape.2 : Nat) : Int) + dr :=
        ⟨_, Int.toNat_of_nonneg g1⟩
      obtain ⟨B, hB⟩ : ∃ B : Nat, (B : Int) = ((idx % shape.2 : Nat) : Int) + dc :=
        ⟨_, Int.toNat_of_nonneg g3⟩
      have hjAB : j = A * shape.2 + B := by
        rw [← hA, ← hB] at hj
        exact_mod_cast hj
      refine ⟨?_, A, B, by omega, by omega, by omega, by omega, by omega, by omega, hjAB⟩
      intro hji
      rw [hji] at hjAB
      have hBlt : B < shape.2 := by omega
      have hdiv : idx / shape.2 = A := by
        rw [hjAB]
        exact flat_div A B shape.2 hBlt
      have hmod : idx % shape.2 = B := by
        rw [hjAB]
        exact flat_mod A B shape.2 hBlt
      exact hne00 ⟨by omega, by omega⟩
  · intro hr hc
    have hset : neighboursIdx shape 0 = {1, shape.2, shape.2 + 1} := by
      ext k
      rw [mem_neighboursIdx]
      simp only [Nat.zero_div, Nat.zero_mod]
      constructor
      · rintro ⟨hne, a, b, ha, hb, h1, h2, h3, h4, hk⟩
        simp only [Finset.mem_insert, Finset.mem_singleton]
        have ha1 : a ≤ 1 := by omega
        have hb1 : b ≤ 1 := by omega
        interval_cases a <;> interval_cases b <;> simp at hk <;> omega
      · intro hk
        simp only [Finset.mem_insert, Finset.mem_singleton] at hk
        rcases hk with hk | hk | hk <;> subst hk
        · exact ⟨by omega, 0, 1, by omega, by omega, by omega, by omega, by omega, by omega,
            by simp⟩
        · exact ⟨by omega, 1, 0, by omega, by omega, by omega, by omega, by omega, by omega,
            by simp⟩
        · exact ⟨by omega, 1, 1, by omega, by omega, by omega, by omega, by omega, by omega,
            by simp⟩
    refine ⟨hset, ?_⟩
    rw [hset, Finset.card_insert_of_not_mem (by simp ; omega),
      Finset.card_insert_of_not_mem (by simp), Finset.card_singleton]

theorem neighbours_clipped_moore_witness :
    ((12 ∈ neighboursIdx (11, 11) 0) ↔
      ∃ dr dc : Int, dr.natAbs ≤ 1 ∧ dc.natAbs ≤ 1 ∧ ¬(dr = 0 ∧ dc = 0) ∧
        0 ≤ ((0 / (11, 11).2 : Nat) : Int) + dr ∧
        ((0 / (11, 11).2 : Nat) : Int) + dr < ((11, 11).1 : Int) ∧
        0 ≤ ((0 % (11, 11).2 : Nat) : Int) + dc ∧
        ((0 % (11, 11).2 : Nat) : Int) + dc < ((11, 11).2 : Int) ∧
        ((12 : Nat) : Int) = (((0 / (11, 11).2 : Nat) : Int) + dr) * ((11, 11).2 : Int) +
          (((0 % (11, 11).2 : Nat) : Int) + dc)) ∧
    neighboursIdx (11, 11) 0 = {1, (11, 11).2, (11, 11).2 + 1} ∧
    (neighboursIdx (11, 11) 0).card = 3 := by
  have h := neighbours_clipped_moore (11, 11) 0 12
  exact ⟨h.1, h.2.1 (by decide) (by decide)⟩

/-- C6: the frame property of `advance()`: only candidate cells (an alive
cell or a neighbour of one) can change, and lying outside the candidate set
is exactly being dead with no alive neighbour before the call; every such
cell keeps its state. -/
theorem update_frame_property (g : Life) (hg : g.WF) (idx : Nat)
    (hidx : idx < g.board.cells.length) :
    (idx ∉ g.cellsToCheck →
      (g.update).board.cells.getD idx false = g.board.cells.getD idx false) ∧
    (idx ∉ g.cellsToCheck ↔
      g.board.cells.getD idx false = false ∧
        ∀ k ∈ neighboursIdx g.board.shape idx, g.board.cells.getD k false = false) := by
  constructor
  · intro hc
    rw [update_cells_getD,
      if_neg (fun h => hc ((mem_toSetDead g idx).mp h.1).1),
      if_neg (fun h => hc ((mem_toSetAlive g idx).mp h.1).1)]
  · rw [not_mem_cellsToCheck_iff g hg idx hidx]
    have hiff : g.getAliveNeighbours idx = ∅ ↔
        ∀ k ∈ neighboursIdx g.board.shape idx, g.board.cells.getD k false = false := by
      rw [Life.getAliveNeighbours, Finset.eq_empty_iff_forall_not_mem]
      constructor
      · intro h k hk
        cases hb : g.board.cells.getD k false
        · rfl
        · have hkl : k < g.board.cells.length := by
            have h2 := Finset.mem_range.mp (neighboursIdx_subset_range g.board.shape idx hk)
            rw [hg.1]
            exact h2
          have hka : k ∈ g.alive_cells := by
            rw [hg.2, mem_aliveSetOf]
            exact ⟨hkl, hb⟩
          exact absurd (Finset.mem_inter.mpr ⟨hka, hk⟩) (h k)
      · intro h k hk
        rw [Finset.mem_inter] at hk
        have hd := h k hk.2
        rw [hg.2, mem_aliveSetOf] at hk
        rw [hk.1.2] at hd
        exact absurd hd (by decide)
    rw [hiff]

theorem update_frame_property_witness :
    ((8 ∉ (Life.init (Board.from_indices (3, 3) {0})).cellsToCheck →
      ((Life.init (Board.from_indices (3, 3) {0})).update).board.cells.getD 8 false =
        (Life.init (Board.from_indices (3, 3) {0})).board.cells.getD 8 false) ∧
    (8 ∉ (Life.init (Board.from_indices (3, 3) {0})).cellsToCheck ↔
      (Life.init (Board.from_indices (3, 3) {0})).board.cells.getD 8 false = false ∧
        ∀ k ∈ neighboursIdx (Life.init (Board.from_indices (3, 3) {0})).board.shape 8,
          (Life.init (Board.from_indices (3, 3) {0})).board.cells.getD k false = false)) :=
  update_frame_property (Life.init (Board.from_indices (3, 3) {0}))
    ⟨by decide, by decide⟩ 8 (by decide)

set_option maxRecDepth 100000 in
/-- C7: the blinker oscillates with period 2: on an 11×11 grid the alive
cells `{(5,4),(5,5),(5,6)}` become exactly `{(4,5),(5,5),(6,5)}` after one
`advance()` and exactly the original `{(5,4),(5,5),(5,6)}` after a second. -/
theorem blinker_period_two :
    aliveSetOf
        ((Life.init (Board.from_2d_indices (11, 11) {(5, 4), (5, 5), (5, 6)})).update).board =
      {flatten (4, 5) (11, 11), flatten (5, 5) (11, 11), flatten (6, 5) (11, 11)} ∧
    aliveSetOf
        (((Life.init (Board.from_2d_indices (11, 11)
          {(5, 4), (5, 5), (5, 6)})).update).update).board =
      {flatten (5, 4) (11, 11), flatten (5, 5) (11, 11), flatten (5, 6) (11, 11)} := by
  constructor <;> decide

theorem dead_is_absorbing_witness :
    (Life.update^[5] (Life.init (Board.from_indices (4, 4) ∅))).board =
        (Life.init (Board.from_indices (4, 4) ∅)).board ∧
      (Life.update^[5] (Life.init (Board.from_indices (4, 4) ∅))).alive_cells = ∅ ∧
      ∀ i : Nat,
        (Life.update^[5] (Life.init (Board.from_indices (4, 4) ∅))).board.cells.getD i false =
          false :=
  dead_is_absorbing (Life.init (Board.from_indices (4, 4) ∅)) ⟨by decide, by decide⟩
    (by decide) 5

/-- C3 (counter-evidence): on a 2×2 grid whose only alive cell is flat index
3, `get(-1)` does not fail: the (unreachable) validation passes the index
through and the parent `list` wraps the negative index, silently returning
the cell at flat index 3; `set(-1, ...)` likewise succeeds.  (Indices `≥
rows*cols` or `< -(rows*cols)` do fail, but via the parent `list`, and a
negative index in `[-rows*cols, -1]` never does.) -/
theorem get_negative_index_wraps :
    (Board.from_indices (2, 2) {3}).get (-1) =
        some ((Board.from_indices (2, 2) {3}).cells.getD 3 false) ∧
      (Board.from_indices (2, 2) {3}).get (-1) = some true ∧
      ((Board.from_indices (2, 2) {3}).set (-1) false).isSome = true ∧
      (Board.from_indices (2, 2) {3}).get 4 = none ∧
      (Board.from_indices (2, 2) {3}).get (-5) = none := by
  decide

/-- C8: round-trip construction: `from_indices(shape, S)` yields a grid of
exactly `rows*cols` cells in which cell `i` is alive iff `i ∈ S`. -/
theorem from_indices_round_trip (shape : Nat × Nat) (s : Finset Nat) (i : Nat)
    (hi : i < shape.1 * shape.2) :
    (Board.from_indices shape s).cells.length = shape.1 * shape.2 ∧
      ((Board.from_indices shape s).cells.getD i false = true ↔ i ∈ s) := by
  constructor
  · simp [Board.from_indices]
  · rw [Board.from_indices, List.getD_eq_getElem?_getD, List.getElem?_map,
      List.getElem?_range hi]
    simp

theorem from_indices_round_trip_witness :
    ((Board.from_indices (3, 2) {1, 4}).cells.length = 3 * 2 ∧
      ((Board.from_indices (3, 2) {1, 4}).cells.getD 4 false = true ↔
        4 ∈ ({1, 4} : Finset Nat))) :=
  from_indices_round_trip (3, 2) {1, 4} 4 (by decide)

/-- C9: constructing a grid from an explicit cell sequence whose length
differs from `rows*cols` fails fast (the constructor's assert), and every
successfully constructed grid satisfies `cells.length = rows*cols`. -/
theorem init_shape_mismatch (shape : Nat × Nat) (init : List Bool)
    (o : Option (List Bool)) (b : Board) :
    (init.length ≠ shape.1 * shape.2 → Board.init shape (some init) = none) ∧
      (Board.init shape o = some b → b.cells.length = b.rows * b.cols) := by
  constructor
  · intro h
    rw [Board.init]
    simp [h]
  · intro h
    rw [Board.init] at h
    split at h
    · rename_i hlen
      injection h with h
      rw [← h]
      exact hlen
    · exact absurd h (by simp)

theorem init_shape_mismatch_witness :
    Board.init (2, 2) (some [true]) = none ∧
      (⟨(2, 2), [true, false, false, false]⟩ : Board).cells.length =
        (⟨(2, 2), [true, false, false, false]⟩ : Board).rows *
          (⟨(2, 2), [true, false, false, false]⟩ : Board).cols := by
  have h := init_shape_mismatch (2, 2) [true] (some [true, false, false, false])
    ⟨(2, 2), [true, false, false, false]⟩
  exact ⟨h.1 (by decide), h.2 (by decide)⟩

/-- C10: `get`/`set` with a 2D pair validate only the resolved flat index
`r*cols + c`, never the components: on any well-formed grid with at least 2
rows the out-of-range coordinate `(0, cols)` resolves to flat index `cols`,
so `get` succeeds without error and returns the cell at `(1, 0)` — a
different row — instead of failing. -/
theorem get2d_validates_only_flat_index (b : Board)
    (hwf : b.cells.length = b.rows * b.cols) (hr : 2 ≤ b.rows) (hc : 1 ≤ b.cols) :
    (∀ rc : Int × Int, b.get2d rc = b.get (flattenI rc b.shape)) ∧
      (∀ (rc : Int × Int) (v : Bool), b.set2d rc v = b.set (flattenI rc b.shape) v) ∧
      b.get2d (0, (b.cols : Int)) = some (b.cells.getD (flatten (1, 0) b.shape) false) := by
  refine ⟨fun _ => rfl, fun _ _ => rfl, ?_⟩
  rw [Board.get2d]
  have h1 : flattenI (0, (b.cols : Int)) b.shape = ((b.cols : Nat) : Int) := by
    rw [flattenI]
    simp [Board.cols]
  have h2 : b.cols < b.cells.length := by
    have h3 : 2 * b.cols ≤ b.rows * b.cols := Nat.mul_le_mul_right _ hr
    omega
  have h4 : flatten (1, 0) b.shape = b.cols := by
    rw [flatten]
    simp [Board.cols]
  rw [h1, h4, Board.get_natCast b b.cols h2]

theorem get2d_validates_only_flat_index_witness :
    ((∀ rc : Int × Int, (⟨(2, 2), [false, false, true, false]⟩ : Board).get2d rc =
        (⟨(2, 2), [false, false, true, false]⟩ : Board).get
          (flattenI rc (⟨(2, 2), [false, false, true, false]⟩ : Board).shape)) ∧
      (∀ (rc : Int × Int) (v : Bool),
        (⟨(2, 2), [false, false, true, false]⟩ : Board).set2d rc v =
          (⟨(2, 2), [false, false, true, false]⟩ : Board).set
            (flattenI rc (⟨(2, 2), [false, false, true, false]⟩ : Board).shape) v) ∧
      (⟨(2, 2), [false, false, true, false]⟩ : Board).get2d
          (0, ((⟨(2, 2), [false, false, true, false]⟩ : Board).cols : Int)) =
        some ((⟨(2, 2), [false, false, true, false]⟩ : Board).cells.getD
          (flatten (1, 0) (⟨(2, 2), [false, false, true, false]⟩ : Board).shape) false)) :=
  get2d_validates_only_flat_index ⟨(2, 2), [false, false, true, false]⟩
    (by decide) (by decide) (by decide)

end GameOfLife
